import Mathlib

/-!
Verification of the weather-cvet1 repository: a shallow embedding of the
historical-data loader (src/src/loader.py) and the query layer
(src/src/webserver.py, src/database.py), with theorems about the
ingestion, chunking, range-query and period-resolution behaviour.

Instants are modelled as integers (seconds); sensor values as integers
(only equality of values is ever relevant to the properties below).
-/

namespace WeatherCvet

/-! ## Remote timestamps (loader.py line 168)

The loader parses a history record timestamp with
  datetime.fromisoformat(timestamp_str.replace('Z', '+00:00')).replace(tzinfo=None)
An ISO-8601 timestamp is modelled by its wall-clock reading (seconds) plus
its zone designator: a trailing Z, an explicit offset, or none (naive). -/

inductive IsoZone where
  | z : IsoZone
  | offset : Int → IsoZone
  | naive : IsoZone
deriving DecidableEq

structure IsoTimestamp where
  wall : Int
  zone : IsoZone
deriving DecidableEq

/-- Models timestamp_str.replace('Z', '+00:00'): a trailing Z becomes the
explicit offset +00:00; other strings are unchanged. -/
def replaceZwithUTC : IsoZone → IsoZone
  | .z => .offset 0
  | x => x

/-- Models datetime.fromisoformat on the (already Z-replaced) string: the
result is the wall-clock reading together with the parsed tzinfo, if any. -/
def fromisoformat (t : IsoTimestamp) : Int × Option Int :=
  (t.wall, match t.zone with
    | .offset o => some o
    | .z => some 0
    | .naive => none)

/-- Models datetime.replace(tzinfo=None): the tzinfo is dropped, the
wall-clock fields are kept as they are. -/
def replaceTzinfoNone (d : Int × Option Int) : Int × Option Int :=
  (d.1, none)

/-- The timestamp the loader stores for a remote record (loader.py line 168). -/
def parseRemoteTimestamp (t : IsoTimestamp) : Int :=
  (replaceTzinfoNone (fromisoformat { t with zone := replaceZwithUTC t.zone })).1

/-- The UTC instant an ISO-8601 timestamp denotes (naive readings taken at
face value). -/
def utcInstant (t : IsoTimestamp) : Int :=
  match t.zone with
  | .offset o => t.wall - o
  | .z => t.wall
  | .naive => t.wall

/-! ## History records (loader.py lines 163-172)

A state-change record has a last_changed field (possibly missing or
malformed) and a state field (possibly missing or non-numeric). The loader
extracts (timestamp, value) and skips the record on ValueError/KeyError. -/

inductive TsField where
  | missing : TsField
  | malformed : TsField
  | iso : IsoTimestamp → TsField
deriving DecidableEq

inductive StateField where
  | missing : StateField
  | nonNumeric : StateField
  | num : Int → StateField
deriving DecidableEq

structure StateChange where
  last_changed : TsField
  state : StateField
deriving DecidableEq

/-- Models the body of the inner try of loader.py lines 165-172: extract and
parse last_changed and state; any ValueError/KeyError yields none (the
record is skipped by the continue). -/
def parseRecord (r : StateChange) : Option (Int × Int) :=
  match r.last_changed, r.state with
  | .iso t, .num v => some (parseRemoteTimestamp t, v)
  | _, _ => none

/-- The points extracted from one batch of records (loader.py lines 164-172). -/
def parseBatch (batch : List StateChange) : List (Int × Int) :=
  batch.filterMap parseRecord

/-- Models loader.py lines 160-174 for one chunk: a failed request (caught
RequestException) contributes nothing, an empty response array contributes
nothing, otherwise the first entity's records are parsed. -/
def extractPoints (data : Option (List (List StateChange))) : List (Int × Int) :=
  match data with
  | none => []
  | some [] => []
  | some (batch :: _) => parseBatch batch

/-! ## Chunking (loader.py fetch_historical_data, lines 135-189)

The loop advances current_start by min(current_start + timedelta(days=max_days),
end_time) until current_start >= end_time. D is the chunk span in seconds.
The guard 0 < D matches the only situation in which the Python loop
terminates at all (max_days >= 1 in every use and in every claim). -/

def chunksFrom (cur e D : Int) : List (Int × Int) :=
  if h : cur < e ∧ 0 < D then
    (cur, min (cur + D) e) :: chunksFrom (min (cur + D) e) e D
  else
    []
termination_by (e - cur).toNat
decreasing_by
  have h1 : cur < min (cur + D) e := lt_min (by omega) h.1
  have h2 : min (cur + D) e ≤ e := min_le_right _ _
  omega

/-- The list of sub-window requests issued by fetch_historical_data for a
window [start, e] with maximum chunk span maxD days (86400 seconds/day). -/
def fetchChunks (start e maxD : Int) : List (Int × Int) :=
  chunksFrom start e (86400 * maxD)

/-- Models fetch_historical_data (loader.py lines 135-189): the environment
resp gives the JSON response for each sub-window request, none standing for
a network failure (caught and logged, loop continues); the extracted points
of all chunks are concatenated in request order. -/
def fetch_historical_data (resp : Int → Int → Option (List (List StateChange)))
    (start e maxD : Int) : List (Int × Int) :=
  (fetchChunks start e maxD).flatMap (fun c => extractPoints (resp c.1 c.2))

/-! ## Time-series store (loader.py lines 91-133, 291-304)

A series table (temperature_data or humidity_data) is a list of
(timestamp, value) rows with timestamp as PRIMARY KEY; INSERT OR IGNORE
writes a row only when the timestamp is absent, and store_temperature /
store_humidity report cursor.rowcount > 0. -/

def hasTimestamp (store : List (Int × Int)) (t : Int) : Bool :=
  store.any (fun r => decide (r.1 = t))

/-- Models INSERT OR IGNORE into a table keyed by timestamp followed by the
rowcount > 0 check: returns the new table and whether a row was written. -/
def insertOrIgnore (store : List (Int × Int)) (t v : Int) : List (Int × Int) × Bool :=
  if hasTimestamp store t then (store, false) else (store ++ [(t, v)], true)

/-- Models HomeAssistantLoader.store_temperature(value, timestamp). -/
def store_temperature (store : List (Int × Int)) (value timestamp : Int) :
    List (Int × Int) × Bool :=
  insertOrIgnore store timestamp value

/-- Models HomeAssistantLoader.store_humidity(value, timestamp). -/
def store_humidity (store : List (Int × Int)) (value timestamp : Int) :
    List (Int × Int) × Bool :=
  insertOrIgnore store timestamp value

/-- Models HomeAssistantLoader.store_sensor_data: stores each point in order
and counts stored vs skipped points; returns (table, stored, skipped). -/
def store_sensor_data (sensor_data : List (Int × Int)) (store : List (Int × Int)) :
    List (Int × Int) × Nat × Nat :=
  match sensor_data with
  | [] => (store, 0, 0)
  | (t, v) :: rest =>
      let r := insertOrIgnore store t v
      let tail := store_sensor_data rest r.1
      (tail.1, (if r.2 then 1 else 0) + tail.2.1, (if r.2 then 0 else 1) + tail.2.2)

/-! ## Range query (webserver.py get_data_by_date_range, lines 280-354;
database.py get_weather_data_range, lines 162-179)

The webserver read path wraps both sides of the comparison in SQLite
datetime(), so it filters rows to start <= timestamp <= end (inclusive
bounds, compared on the normalized timestamp) and orders by the normalized
timestamp ascending; rangeQuery models it over normalized instants. The
database.py read path instead runs timestamp BETWEEN ? AND ? ORDER BY
timestamp ASC on the raw TEXT column — lexicographic byte comparison of the
stored strings, with no datetime() normalization and no entity filter;
get_weather_data_range models it over the stored strings themselves. -/

def tsLE (a b : Int × Int) : Prop := a.1 ≤ b.1

instance : DecidableRel tsLE := fun a b => inferInstanceAs (Decidable (a.1 ≤ b.1))

instance : IsTotal (Int × Int) tsLE := ⟨fun a b => Int.le_total a.1 b.1⟩

instance : IsTrans (Int × Int) tsLE := ⟨fun _ _ _ h1 h2 => le_trans h1 h2⟩

/-- Models the SELECT ... WHERE datetime(timestamp) >= ? AND datetime(timestamp) <= ?
ORDER BY datetime(timestamp) ASC query: the rows of the table whose timestamp
lies in [s, e], in ascending timestamp order. -/
def rangeQuery (store : List (Int × Int)) (s e : Int) : List (Int × Int) :=
  List.insertionSort tsLE (store.filter (fun r => decide (s ≤ r.1 ∧ r.1 ≤ e)))

/-- Models WeatherWebServer.get_data_by_date_range (webserver.py lines
280-354): none when the query returns no rows; otherwise the rows, extended
by one synthetic point (e, last value) when the last row precedes e. -/
def get_data_by_date_range (store : List (Int × Int)) (s e : Int) :
    Option (List (Int × Int)) :=
  let results := rangeQuery store s e
  match results.getLast? with
  | none => none
  | some last => if last.1 < e then some (results ++ [(e, last.2)]) else some results

/-- Memcmp-style comparison of two character sequences by code point, as
SQLite's default BINARY collation orders TEXT values (the timestamp strings
here are ASCII, where code-point order is byte order). -/
def rawLeb : List Char → List Char → Bool
  | [], _ => true
  | _ :: _, [] => false
  | a :: as, b :: bs =>
      if a.toNat < b.toNat then true
      else if b.toNat < a.toNat then false
      else rawLeb as bs

/-- The raw TEXT comparison SQLite applies to the timestamp column of
weather_data: lexicographic byte order of the stored strings, with no
datetime() normalization. -/
def rawTextLE (a b : String) : Prop := rawLeb a.data b.data = true

instance : DecidableRel rawTextLE :=
  fun a b => inferInstanceAs (Decidable (rawLeb a.data b.data = true))

instance : IsTotal String rawTextLE := by
  constructor
  intro a b
  suffices h : ∀ la lb : List Char, rawLeb la lb = true ∨ rawLeb lb la = true from
    h a.data b.data
  intro la
  induction la with
  | nil => intro lb; exact Or.inl rfl
  | cons x as ih =>
      intro lb
      cases lb with
      | nil => exact Or.inr rfl
      | cons y bs =>
          rcases Nat.lt_trichotomy x.toNat y.toNat with h1 | h1 | h1
          · refine Or.inl ?_
            simp only [rawLeb]
            rw [if_pos h1]
          · rcases ih bs with h | h
            · refine Or.inl ?_
              simp only [rawLeb]
              rw [if_neg (by omega), if_neg (by omega)]
              exact h
            · refine Or.inr ?_
              simp only [rawLeb]
              rw [if_neg (by omega), if_neg (by omega)]
              exact h
          · refine Or.inr ?_
            simp only [rawLeb]
            rw [if_pos h1]

instance : IsTrans String rawTextLE := by
  constructor
  intro a b c hab hbc
  suffices h : ∀ la lb lc : List Char,
      rawLeb la lb = true → rawLeb lb lc = true → rawLeb la lc = true from
    h a.data b.data c.data hab hbc
  intro la
  induction la with
  | nil => intro lb lc hab hbc; rfl
  | cons x as ih =>
      intro lb lc hab hbc
      cases lb with
      | nil => exact absurd hab (by simp [rawLeb])
      | cons y bs =>
          cases lc with
          | nil => exact absurd hbc (by simp [rawLeb])
          | cons z cs =>
              rcases Nat.lt_trichotomy x.toNat y.toNat with h1 | h1 | h1
              · rcases Nat.lt_trichotomy y.toNat z.toNat with h2 | h2 | h2
                · simp only [rawLeb]; rw [if_pos (by omega)]
                · simp only [rawLeb]; rw [if_pos (by omega)]
                · simp only [rawLeb] at hbc
                  rw [if_neg (by omega), if_pos h2] at hbc
                  exact absurd hbc Bool.false_ne_true
              · rcases Nat.lt_trichotomy y.toNat z.toNat with h2 | h2 | h2
                · simp only [rawLeb]; rw [if_pos (by omega)]
                · simp only [rawLeb] at hab hbc ⊢
                  rw [if_neg (by omega), if_neg (by omega)] at hab hbc ⊢
                  exact ih bs cs hab hbc
                · simp only [rawLeb] at hbc
                  rw [if_neg (by omega), if_pos h2] at hbc
                  exact absurd hbc Bool.false_ne_true
              · simp only [rawLeb] at hab
                rw [if_neg (by omega), if_pos h1] at hab
                exact absurd hab Bool.false_ne_true

/-- Models WeatherDatabase.get_weather_data_range (database.py lines
162-179): SELECT * FROM weather_data WHERE timestamp BETWEEN ? AND ?
ORDER BY timestamp ASC. The timestamp column is stored text (whatever
string insert_weather_data received), and no datetime() normalization is
applied, so bounds and order are lexicographic on the raw strings; a row is
represented here by its stored timestamp string. -/
def get_weather_data_range (table : List String) (start_date end_date : String) :
    List String :=
  List.insertionSort rawTextLE
    (table.filter (fun ts => decide (rawTextLE start_date ts ∧ rawTextLE ts end_date)))

/-! ## Period resolution (webserver.py get_date_range_for_period, lines 356-374) -/

/-- Models WeatherWebServer.get_date_range_for_period: a period string not in
the known set falls back to 24h; the window ends at now. -/
def get_date_range_for_period (period : String) (now : Int) : Int × Int :=
  let period := if period ∈ ["24h", "week", "month"] then period else "24h"
  if period = "24h" then (now - 86400, now)
  else if period = "week" then (now - 7 * 86400, now)
  else if period = "month" then (now - 30 * 86400, now)
  else (now - 86400, now)

/-- C7: resolveWindow maps 24h to [now - 24h, now], week to [now - 7d, now],
month to [now - 30d, now]; at now = 2024-01-02T12:00:00Z (epoch 1704196800)
the 24h window is [2024-01-01T12:00:00Z, 2024-01-02T12:00:00Z]. -/
theorem resolve_window_mapping (now : Int) :
    get_date_range_for_period "24h" now = (now - 86400, now)
    ∧ get_date_range_for_period "week" now = (now - 604800, now)
    ∧ get_date_range_for_period "month" now = (now - 2592000, now)
    ∧ get_date_range_for_period "24h" 1704196800 = (1704110400, 1704196800) := by
  refine ⟨?_, ?_, ?_, ?_⟩ <;> simp [get_date_range_for_period]

/-- C8: a selector string outside the known set resolves to exactly the same
window as the 24h selector, for every now (and without raising: the function
is total). -/
theorem invalid_selector_fallback (s : String) (now : Int)
    (h : s ∉ (["24h", "week", "month"] : List String)) :
    get_date_range_for_period s now = get_date_range_for_period "24h" now := by
  simp [get_date_range_for_period, h]

/-- Witness for C8 at the spec's own example: the selector "bogus". -/
theorem invalid_selector_fallback_witness :
    "bogus" ∉ (["24h", "week", "month"] : List String)
    ∧ get_date_range_for_period "bogus" 0 = get_date_range_for_period "24h" 0 :=
  ⟨by decide, invalid_selector_fallback "bogus" 0 (by decide)⟩

/-- C6 counterexample: for the remote timestamp 1970-01-01T12:00:00+05:00
(wall clock 43200 s, offset +05:00 = 18000 s) the loader stores the naive
wall-clock reading 43200, while the UTC instant of the input is 25200
(07:00): the offset is merely stripped, not normalized to UTC first, so the
claim's stored-equals-UTC property fails. -/
theorem ts_normalization_cex :
    parseRemoteTimestamp ⟨43200, .offset 18000⟩ = 43200
    ∧ utcInstant ⟨43200, .offset 18000⟩ = 25200
    ∧ parseRemoteTimestamp ⟨43200, .offset 18000⟩ ≠ utcInstant ⟨43200, .offset 18000⟩ := by
  refine ⟨rfl, rfl, by decide⟩

/-- C6 amended: the parser accepts a trailing Z (it is rewritten to +00:00
before fromisoformat) and always stores the input's wall-clock reading with
the zone information dropped; this equals the UTC instant exactly for UTC
inputs (trailing Z or offset +00:00, and trivially naive inputs), not for a
general nonzero offset. -/
theorem ts_normalization_amended (t : IsoTimestamp) :
    parseRemoteTimestamp t = t.wall
    ∧ (t.zone = .z → parseRemoteTimestamp t = utcInstant t)
    ∧ (t.zone = .offset 0 → parseRemoteTimestamp t = utcInstant t)
    ∧ (t.zone = .naive → parseRemoteTimestamp t = utcInstant t) := by
  obtain ⟨w, zn⟩ := t
  refine ⟨rfl, ?_, ?_, ?_⟩ <;> rintro rfl <;>
    simp [parseRemoteTimestamp, utcInstant, replaceZwithUTC, fromisoformat, replaceTzinfoNone]

/-- Witness for C6 amended at a trailing-Z input. -/
theorem ts_normalization_amended_witness :
    parseRemoteTimestamp ⟨100, .z⟩ = 100
    ∧ parseRemoteTimestamp ⟨100, .z⟩ = utcInstant ⟨100, .z⟩ :=
  ⟨(ts_normalization_amended ⟨100, .z⟩).1,
   (ts_normalization_amended ⟨100, .z⟩).2.1 rfl⟩

/-- C9: a record with a missing or malformed timestamp field or a missing or
non-numeric state parses to none; a batch containing one such bad record
parses to exactly the parses of the records around it — every other record
is still processed and no exception escapes (parseBatch is total). -/
theorem parse_error_tolerance (xs ys : List StateChange) (bad : StateChange)
    (hbad : parseRecord bad = none) :
    parseBatch (xs ++ bad :: ys) = parseBatch xs ++ parseBatch ys
    ∧ (∀ r, (r.last_changed = .missing ∨ r.last_changed = .malformed
          ∨ r.state = .missing ∨ r.state = .nonNumeric) → parseRecord r = none)
    ∧ (∀ r p, r ∈ xs ++ ys → parseRecord r = some p →
          p ∈ parseBatch (xs ++ bad :: ys)) := by
  have hsplit : parseBatch (xs ++ bad :: ys) = parseBatch xs ++ parseBatch ys := by
    simp [parseBatch, List.filterMap_append, List.filterMap_cons, hbad]
  refine ⟨hsplit, ?_, ?_⟩
  · intro r hr
    obtain ⟨lc, st⟩ := r
    rcases hr with h | h | h | h <;> simp_all [parseRecord]
  · intro r p hr hp
    rw [hsplit]
    rcases List.mem_append.1 hr with h | h
    · exact List.mem_append_left _ (List.mem_filterMap.2 ⟨r, h, hp⟩)
    · exact List.mem_append_right _ (List.mem_filterMap.2 ⟨r, h, hp⟩)

/-- Witness for C9: one good record before and after a non-numeric record. -/
theorem parse_error_tolerance_witness :
    parseRecord ⟨.iso ⟨0, .z⟩, .nonNumeric⟩ = none
    ∧ parseBatch [⟨.iso ⟨5, .z⟩, .num 7⟩, ⟨.iso ⟨0, .z⟩, .nonNumeric⟩,
        ⟨.iso ⟨9, .z⟩, .num 3⟩]
      = parseBatch [⟨.iso ⟨5, .z⟩, .num 7⟩] ++ parseBatch [⟨.iso ⟨9, .z⟩, .num 3⟩] :=
  ⟨rfl, (parse_error_tolerance [⟨.iso ⟨5, .z⟩, .num 7⟩] [⟨.iso ⟨9, .z⟩, .num 3⟩]
      ⟨.iso ⟨0, .z⟩, .nonNumeric⟩ rfl).1⟩

/-! ## Lemmas about the store -/

lemma hasTimestamp_iff (store : List (Int × Int)) (t : Int) :
    hasTimestamp store t = true ↔ ∃ r ∈ store, r.1 = t := by
  simp [hasTimestamp]

lemma hasTimestamp_insertOrIgnore (store : List (Int × Int)) (t v t0 : Int)
    (h : hasTimestamp store t0 = true) :
    hasTimestamp (insertOrIgnore store t v).1 t0 = true := by
  unfold insertOrIgnore
  split
  · exact h
  · rw [hasTimestamp_iff] at h ⊢
    obtain ⟨r, hr, hr0⟩ := h
    exact ⟨r, List.mem_append_left _ hr, hr0⟩

lemma hasTimestamp_insertOrIgnore_self (store : List (Int × Int)) (t v : Int) :
    hasTimestamp (insertOrIgnore store t v).1 t = true := by
  unfold insertOrIgnore
  split
  · assumption
  · rw [hasTimestamp_iff]
    exact ⟨(t, v), List.mem_append_right _ (List.mem_singleton.2 rfl), rfl⟩

lemma hasTimestamp_store_sensor_data (pts : List (Int × Int))
    (store : List (Int × Int)) (t0 : Int) (h : hasTimestamp store t0 = true) :
    hasTimestamp (store_sensor_data pts store).1 t0 = true := by
  induction pts generalizing store with
  | nil => exact h
  | cons p rest ih =>
      obtain ⟨t, v⟩ := p
      exact ih _ (hasTimestamp_insertOrIgnore store t v t0 h)

lemma hasTimestamp_store_sensor_data_mem (pts : List (Int × Int))
    (store : List (Int × Int)) (p : Int × Int) (hp : p ∈ pts) :
    hasTimestamp (store_sensor_data pts store).1 p.1 = true := by
  induction pts generalizing store with
  | nil => cases hp
  | cons q rest ih =>
      obtain ⟨t, v⟩ := q
      rcases List.mem_cons.1 hp with h | h
      · subst h
        exact hasTimestamp_store_sensor_data rest _ _
          (hasTimestamp_insertOrIgnore_self store t v)
      · exact ih _ h

lemma store_sensor_data_noop (pts : List (Int × Int)) (store : List (Int × Int))
    (h : ∀ p ∈ pts, hasTimestamp store p.1 = true) :
    store_sensor_data pts store = (store, 0, pts.length) := by
  induction pts generalizing store with
  | nil => rfl
  | cons p rest ih =>
      obtain ⟨t, v⟩ := p
      have ht : hasTimestamp store t = true := h (t, v) (List.mem_cons_self _ _)
      have hins : insertOrIgnore store t v = (store, false) := by
        simp [insertOrIgnore, ht]
      simp only [store_sensor_data, hins, ih store fun p hp => h p (List.mem_cons_of_mem _ hp)]
      simp [List.length_cons]
      omega

/-- C1: inserting at an already-present timestamp writes no row, changes
nothing (in particular the stored value at that timestamp) and returns
false; inserting at a fresh timestamp and then re-inserting the same point
leaves exactly one row at that timestamp with the second insert returning
false; re-running a whole backfill (store_sensor_data) over points already
stored changes nothing, storing 0 and skipping all of them; and both series
(temperature, humidity) run the identical insert. -/
theorem insert_idempotent (store : List (Int × Int)) (t v : Int) :
    (hasTimestamp store t = true → insertOrIgnore store t v = (store, false))
    ∧ (hasTimestamp store t = false →
        insertOrIgnore ((insertOrIgnore store t v).1) t v
            = ((insertOrIgnore store t v).1, false)
        ∧ (((insertOrIgnore store t v).1).filter (fun r => decide (r.1 = t))).length = 1)
    ∧ (∀ pts, store_sensor_data pts (store_sensor_data pts store).1
        = ((store_sensor_data pts store).1, 0, pts.length))
    ∧ store_temperature store v t = insertOrIgnore store t v
    ∧ store_humidity store v t = insertOrIgnore store t v := by
  refine ⟨?_, ?_, ?_, rfl, rfl⟩
  · intro h
    simp [insertOrIgnore, h]
  · intro h
    have h1 : (insertOrIgnore store t v).1 = store ++ [(t, v)] := by
      simp [insertOrIgnore, h]
    constructor
    · have h2 : hasTimestamp (insertOrIgnore store t v).1 t = true :=
        hasTimestamp_insertOrIgnore_self store t v
      rw [h1] at h2 ⊢
      simp [insertOrIgnore, h2]
    · rw [h1, List.filter_append]
      have h3 : store.filter (fun r => decide (r.1 = t)) = [] := by
        rw [List.filter_eq_nil_iff]
        intro r hr
        simp only [decide_eq_true_eq]
        intro heq
        have : hasTimestamp store t = true := (hasTimestamp_iff store t).2 ⟨r, hr, heq⟩
        simp [this] at h
      rw [h3]
      simp
  · intro pts
    exact store_sensor_data_noop pts _ fun p hp =>
      hasTimestamp_store_sensor_data_mem pts store p hp

/-- Witness for C1 at a store holding one row at timestamp 10. -/
theorem insert_idempotent_witness :
    hasTimestamp [((10 : Int), (1 : Int))] 10 = true
    ∧ insertOrIgnore [((10 : Int), (1 : Int))] 10 2 = ([(10, 1)], false)
    ∧ hasTimestamp [((10 : Int), (1 : Int))] 11 = false
    ∧ ((insertOrIgnore [((10 : Int), (1 : Int))] 11 2).1.filter
        (fun r => decide (r.1 = 11))).length = 1 :=
  ⟨by decide, (insert_idempotent [((10 : Int), 1)] 10 2).1 (by decide),
   by decide, ((insert_idempotent [((10 : Int), 1)] 11 2).2.1 (by decide)).2⟩

/-! ## Lemmas about chunking -/

lemma chunksFrom_pos (cur e D : Int) (h1 : cur < e) (h2 : 0 < D) :
    chunksFrom cur e D = (cur, min (cur + D) e) :: chunksFrom (min (cur + D) e) e D := by
  rw [chunksFrom]
  simp [h1, h2]

lemma chunksFrom_neg (cur e D : Int) (h : ¬(cur < e ∧ 0 < D)) :
    chunksFrom cur e D = [] := by
  rw [chunksFrom]
  simp only [dif_neg h]

lemma ceil_div_step (R d : Nat) (hd : 1 ≤ d) (hR : 1 ≤ R) :
    (R - d + d - 1) / d + 1 = (R + d - 1) / d := by
  have hd0 : 0 < d := hd
  have h3 : R + d - 1 = (R - 1) + d := by omega
  rcases Nat.lt_or_ge d R with h | h
  · have h4 : R - d + d - 1 = (R - d - 1) + d := by omega
    have h5 : R - 1 = (R - d - 1) + d := by omega
    rw [h4, h3, h5, Nat.add_div_right _ hd0, Nat.add_div_right _ hd0,
      Nat.add_div_right _ hd0]
  · have h4 : R - d = 0 := by omega
    rw [h4, h3, Nat.add_div_right _ hd0, Nat.div_eq_of_lt (by omega),
      Nat.div_eq_of_lt (by omega)]

lemma chunksFrom_length (cur e D : Int) (hD : 0 < D) :
    (chunksFrom cur e D).length = ((e - cur).toNat + D.toNat - 1) / D.toNat := by
  induction cur, e, D using chunksFrom.induct with
  | case1 cur e D h ih =>
      rw [chunksFrom_pos cur e D h.1 h.2, List.length_cons, ih hD]
      have hd : 1 ≤ D.toNat := by omega
      have hR : 1 ≤ (e - cur).toNat := by omega
      have hmin : (e - min (cur + D) e).toNat = (e - cur).toNat - D.toNat := by
        rcases le_total (cur + D) e with hle | hle
        · rw [min_eq_left hle]; omega
        · rw [min_eq_right hle]; omega
      rw [hmin]
      exact ceil_div_step _ _ hd hR
  | case2 cur e D h =>
      rw [chunksFrom_neg cur e D h, List.length_nil]
      have h1 : ¬ cur < e := fun hc => h ⟨hc, hD⟩
      have h2 : (e - cur).toNat = 0 := by omega
      rw [h2, Nat.zero_add, Nat.div_eq_of_lt (by omega)]

lemma chunksFrom_mem (cur e D : Int) (hD : 0 < D) :
    ∀ c ∈ chunksFrom cur e D, c.1 < c.2 ∧ c.2 - c.1 ≤ D := by
  induction cur, e, D using chunksFrom.induct with
  | case1 cur e D h ih =>
      rw [chunksFrom_pos cur e D h.1 h.2]
      intro c hc
      rcases List.mem_cons.1 hc with hc | hc
      · subst hc
        refine ⟨lt_min (by omega) h.1, ?_⟩
        have := min_le_left (cur + D) e
        omega
      · exact ih hD c hc
  | case2 cur e D h =>
      rw [chunksFrom_neg cur e D h]
      intro c hc
      cases hc

lemma chunksFrom_head (cur e D : Int) (h1 : cur < e) (h2 : 0 < D) :
    (chunksFrom cur e D).head? = some (cur, min (cur + D) e) := by
  rw [chunksFrom_pos cur e D h1 h2, List.head?_cons]

lemma chunksFrom_chain (cur e D : Int) :
    List.Chain' (fun a b => a.2 = b.1) (chunksFrom cur e D) := by
  induction cur, e, D using chunksFrom.induct with
  | case1 cur e D h ih =>
      rw [chunksFrom_pos cur e D h.1 h.2]
      refine List.chain'_cons'.2 ⟨?_, ih⟩
      intro b hb
      by_cases hm : min (cur + D) e < e ∧ 0 < D
      · rw [chunksFrom_head _ _ _ hm.1 hm.2] at hb
        simp only [Option.mem_def, Option.some.injEq] at hb
        rw [← hb]
      · rw [chunksFrom_neg _ _ _ hm] at hb
        simp at hb
  | case2 cur e D h =>
      rw [chunksFrom_neg cur e D h]
      exact List.chain'_nil

lemma chunksFrom_getLast (cur e D : Int) (h1 : cur < e) (h2 : 0 < D) :
    (chunksFrom cur e D).getLast?.map Prod.snd = some e := by
  induction cur, e, D using chunksFrom.induct with
  | case1 cur e D h ih =>
      rw [chunksFrom_pos cur e D h.1 h.2]
      by_cases hm : min (cur + D) e < e
      · have hrec := ih hm h.2
        rw [chunksFrom_pos _ _ _ hm h.2] at hrec ⊢
        rwa [List.getLast?_cons_cons]
      · have hm2 : min (cur + D) e = e := le_antisymm (min_le_right _ _) (by omega)
        rw [chunksFrom_neg _ _ _ (fun hc => hm hc.1)]
        simp [hm2]
  | case2 cur e D h =>
      exact absurd ⟨h1, h2⟩ h

lemma chunksFrom_cover (cur e D : Int) (hD : 0 < D) (t : Int) :
    (∃ c ∈ chunksFrom cur e D, c.1 ≤ t ∧ t ≤ c.2) ↔ (cur < e ∧ cur ≤ t ∧ t ≤ e) := by
  induction cur, e, D using chunksFrom.induct with
  | case1 cur e D h ih =>
      rw [chunksFrom_pos cur e D h.1 h.2]
      simp only [List.mem_cons, exists_eq_or_imp]
      rw [ih hD]
      rcases le_total (cur + D) e with hle | hle
      · rw [min_eq_left hle]
        constructor
        · rintro (⟨ha, hb⟩ | ⟨ha, hb, hc⟩) <;> exact ⟨h.1, by omega, by omega⟩
        · rintro ⟨ha, hb, hc⟩
          by_cases hsp : t ≤ cur + D
          · exact Or.inl ⟨hb, hsp⟩
          · exact Or.inr ⟨by omega, by omega, hc⟩
      · rw [min_eq_right hle]
        constructor
        · rintro (⟨ha, hb⟩ | ⟨ha, hb, hc⟩) <;> exact ⟨h.1, by omega, by omega⟩
        · rintro ⟨ha, hb, hc⟩
          exact Or.inl ⟨hb, hc⟩
  | case2 cur e D h =>
      rw [chunksFrom_neg cur e D h]
      simp only [List.not_mem_nil, false_and, exists_false, false_iff, not_and]
      intro hc
      exact absurd ⟨hc, hD⟩ h

/-- C2: with start < end and max chunk span at least one day, every issued
sub-window is nonempty and spans at most 86400*maxD seconds, consecutive
sub-windows share exactly their boundary instant, the first starts at start,
the last ends at end, their union is exactly [start, end], and a 45-day
window (3888000 s) with a 10-day maximum span yields exactly 5 sub-windows. -/
theorem chunking_completeness (start e maxD : Int) (h1 : start < e) (h2 : 1 ≤ maxD) :
    (∀ c ∈ fetchChunks start e maxD, c.1 < c.2 ∧ c.2 - c.1 ≤ 86400 * maxD)
    ∧ List.Chain' (fun a b => a.2 = b.1) (fetchChunks start e maxD)
    ∧ (fetchChunks start e maxD).head?.map Prod.fst = some start
    ∧ (fetchChunks start e maxD).getLast?.map Prod.snd = some e
    ∧ (∀ t, (start ≤ t ∧ t ≤ e) ↔ ∃ c ∈ fetchChunks start e maxD, c.1 ≤ t ∧ t ≤ c.2)
    ∧ (fetchChunks 0 3888000 10).length = 5 := by
  have hD : 0 < 86400 * maxD := by positivity
  refine ⟨chunksFrom_mem start e _ hD, chunksFrom_chain start e _, ?_, ?_, ?_, ?_⟩
  · rw [fetchChunks, chunksFrom_head start e _ h1 hD]
    rfl
  · exact chunksFrom_getLast start e _ h1 hD
  · intro t
    rw [fetchChunks, chunksFrom_cover start e _ hD t]
    omega
  · rw [fetchChunks, chunksFrom_length 0 3888000 (86400 * 10) (by norm_num)]
    decide

/-- Witness for C2 at the spec's 45-day/10-day example. -/
theorem chunking_completeness_witness :
    (0 : Int) < 3888000 ∧ (1 : Int) ≤ 10 ∧ (fetchChunks 0 3888000 10).length = 5 :=
  ⟨by norm_num, by norm_num,
   (chunking_completeness 0 3888000 10 (by norm_num) (by norm_num)).2.2.2.2.2⟩

/-- C10: while current_start < end_time the next chunk start
min(current_start + span, end_time) is strictly larger, and the chunk loop
runs exactly ceil((end - start) / span) iterations — in particular it
terminates for every window and every max_days >= 1. -/
theorem chunk_loop_termination (start e maxD : Int) (h : 1 ≤ maxD) :
    (∀ cur, cur < e → cur < min (cur + 86400 * maxD) e)
    ∧ (fetchChunks start e maxD).length
        = ((e - start).toNat + (86400 * maxD).toNat - 1) / (86400 * maxD).toNat := by
  have hD : 0 < 86400 * maxD := by positivity
  exact ⟨fun cur hc => lt_min (by omega) hc,
    chunksFrom_length start e _ hD⟩

/-- Witness for C10: a 100000-second window with a 1-day span gives 2 chunks. -/
theorem chunk_loop_termination_witness :
    (1 : Int) ≤ 1 ∧ (fetchChunks 0 100000 1).length = 2 := by
  have h := (chunk_loop_termination 0 100000 1 (by norm_num)).2
  norm_num at h
  exact ⟨le_refl 1, h⟩

/-- C3: the result of fetch_historical_data is exactly the concatenation, in
request order, of the points of the successful sub-window requests: failed
requests (resp = none) contribute nothing and do not stop the remaining
sub-windows from contributing; the function is total, so no failure
propagates as an exception. -/
theorem partial_failure_tolerance (resp : Int → Int → Option (List (List StateChange)))
    (start e maxD : Int) :
    fetch_historical_data resp start e maxD
      = ((fetchChunks start e maxD).filter (fun c => (resp c.1 c.2).isSome)).flatMap
          (fun c => extractPoints (resp c.1 c.2)) := by
  rw [fetch_historical_data]
  induction fetchChunks start e maxD with
  | nil => rfl
  | cons c rest ih =>
      rw [List.flatMap_cons, List.filter_cons]
      by_cases hc : (resp c.1 c.2).isSome
      · rw [if_pos hc, List.flatMap_cons, ih]
      · have hnone : resp c.1 c.2 = none := Option.not_isSome_iff_eq_none.1 hc
        rw [if_neg hc, ih, hnone]
        simp [extractPoints]

/-- C4 counterexample: database.py get_weather_data_range compares the raw
TEXT timestamp column, so the result is not determined by the normalized
(UTC) timestamp. The strings "2024-01-02T12:00:00+00:00" (offset-aware) and
"2024-01-02T12:00:00" (naive) denote the same UTC instant 1704196800 — last
conjuncts, via the timestamp model — yet over the stored-string window
["2024-01-01T12:00:00", "2024-01-02T12:00:00"] the query keeps the naive row
and excludes the aware one, because the aware string lexicographically
exceeds the string-equal-instant inclusive end bound; the webserver's
normalized query (rangeQuery, third conjunct) includes the point at that
boundary instant, as the claim demands. -/
theorem range_query_raw_text_cex :
    get_weather_data_range ["2024-01-02T12:00:00+00:00"]
        "2024-01-01T12:00:00" "2024-01-02T12:00:00" = []
    ∧ get_weather_data_range ["2024-01-02T12:00:00"]
        "2024-01-01T12:00:00" "2024-01-02T12:00:00" = ["2024-01-02T12:00:00"]
    ∧ rangeQuery [(1704196800, 42)] 1704110400 1704196800 = [(1704196800, 42)]
    ∧ utcInstant ⟨1704196800, .offset 0⟩ = 1704196800
    ∧ utcInstant ⟨1704196800, .naive⟩ = 1704196800 := by
  refine ⟨by decide, by decide, by decide, by decide, by decide⟩

/-- C4 amended: the webserver read path (get_data_by_date_range, which wraps
both comparison sides in SQLite datetime()) satisfies the claim: for any
table contents and bounds s <= e, rangeQuery returns a list sorted in
non-decreasing normalized-timestamp order which is a permutation of (and has
the same members as) the stored rows whose normalized timestamp lies in
[s, e], bounds inclusive, and any reordering of the table (any insertion
order) yields the same rows up to permutation. The database.py
get_weather_data_range path instead filters to the rows whose raw timestamp
string lies lexicographically between the bound strings (inclusive) and
sorts by raw string order — which agrees with normalized-timestamp
comparison only when all stored strings share one format. -/
theorem range_query_ordered (store : List (Int × Int)) (s e : Int) (hse : s ≤ e) :
    List.Sorted tsLE (rangeQuery store s e)
    ∧ List.Perm (rangeQuery store s e)
        (store.filter (fun r => decide (s ≤ r.1 ∧ r.1 ≤ e)))
    ∧ (∀ p, p ∈ rangeQuery store s e ↔ p ∈ store ∧ s ≤ p.1 ∧ p.1 ≤ e)
    ∧ (∀ other, List.Perm other store →
        List.Perm (rangeQuery other s e) (rangeQuery store s e))
    ∧ (∀ (table : List String) (sd ed : String),
        List.Sorted rawTextLE (get_weather_data_range table sd ed)
        ∧ ∀ ts, ts ∈ get_weather_data_range table sd ed
            ↔ ts ∈ table ∧ rawTextLE sd ts ∧ rawTextLE ts ed) := by
  refine ⟨List.sorted_insertionSort tsLE _, List.perm_insertionSort tsLE _, ?_, ?_, ?_⟩
  · intro p
    rw [rangeQuery, List.mem_insertionSort, List.mem_filter]
    simp
  · intro other hperm
    exact ((List.perm_insertionSort tsLE _).trans (hperm.filter _)).trans
      (List.perm_insertionSort tsLE _).symm
  · intro table sd ed
    refine ⟨List.sorted_insertionSort rawTextLE _, ?_⟩
    intro ts
    rw [get_weather_data_range, List.mem_insertionSort, List.mem_filter]
    simp

/-- Witness for C4 at a three-row table inserted out of order. -/
theorem range_query_ordered_witness :
    (1 : Int) ≤ 3
    ∧ List.Sorted tsLE (rangeQuery [((3 : Int), (30 : Int)), (1, 10), (5, 50)] 1 3)
    ∧ (((1 : Int), (10 : Int)) ∈ rangeQuery [((3 : Int), (30 : Int)), (1, 10), (5, 50)] 1 3
        ↔ ((1 : Int), (10 : Int)) ∈ [((3 : Int), (30 : Int)), (1, 10), (5, 50)]
          ∧ (1 : Int) ≤ 1 ∧ (1 : Int) ≤ 3) :=
  ⟨by norm_num,
   (range_query_ordered [((3 : Int), 30), (1, 10), (5, 50)] 1 3 (by norm_num)).1,
   (range_query_ordered [((3 : Int), 30), (1, 10), (5, 50)] 1 3 (by norm_num)).2.2.1 (1, 10)⟩

/-- C5: when the range query for [s, e] is empty the period query returns
none (nothing is appended); when it is non-empty with last point (tl, vl),
the period query returns the list with exactly one extra point (e, vl)
appended if tl < e, and the list unchanged if tl >= e. -/
theorem trailing_extension (store : List (Int × Int)) (s e : Int) :
    (rangeQuery store s e = [] → get_data_by_date_range store s e = none)
    ∧ (∀ tl vl, (rangeQuery store s e).getLast? = some (tl, vl) →
        (tl < e → get_data_by_date_range store s e
            = some (rangeQuery store s e ++ [(e, vl)]))
        ∧ (e ≤ tl → get_data_by_date_range store s e = some (rangeQuery store s e))) := by
  constructor
  · intro h
    simp [get_data_by_date_range, h]
  · intro tl vl h
    constructor
    · intro hcmp
      simp only [get_data_by_date_range, h]
      rw [if_pos hcmp]
    · intro hcmp
      simp only [get_data_by_date_range, h]
      rw [if_neg (not_lt.2 hcmp)]

/-- Witness for C5: one stored point at timestamp 5 queried over [0, 10]
gains the synthetic trailing point (10, 42). -/
theorem trailing_extension_witness :
    (rangeQuery [((5 : Int), (42 : Int))] 0 10).getLast? = some (5, 42)
    ∧ get_data_by_date_range [((5 : Int), (42 : Int))] 0 10
        = some (rangeQuery [((5 : Int), (42 : Int))] 0 10 ++ [(10, 42)]) :=
  ⟨by decide,
   ((trailing_extension [((5 : Int), 42)] 0 10).2 5 42 (by decide)).1 (by decide)⟩

end WeatherCvet
